import Mathlib

/-
Shallow embedding of src/availability.py (appointment slot availability engine).

Modelling conventions:
* A time of day is a Nat, minutes since midnight; an "HH:MM" string parsed by
  strptime always yields a value below 1440 (captured by the ValidTimes predicate).
* A calendar date is a Nat day index; the weekday of day d is d % 7, matching
  the weekly schedule lookup by weekday name in get_business_hours.
* A datetime (datetime.combine(date, t)) is the Int d * 1440 + t; appointment
  timestamps are arbitrary Ints on the same axis.  Python drops the tzinfo of an
  aware timestamp keeping the wall clock, so normalisation is the identity here
  and a timestamp is either a parsed wall-clock Int or an unparseable marker.
* Python dicts are association lists with first-match lookup; the ISO
  "YYYY-MM-DD" key of future_appointments is modelled by the day index itself
  (the string encoding of a date is injective, so this preserves the semantics).
* A field read with .get that treats the empty string as falsy keeps that
  behaviour explicitly (truthyOr below mirrors the Python `or`).
* The while loops of calculate_days_needed can genuinely fail to terminate in
  the source, so they are embedded with explicit fuel and a diverged outcome;
  the slot-start generator advances by a positive interval, its fuel
  (close - open) is always sufficient in that case.
-/

/-- A Shopmonkey timestamp string: either it parses (fromisoformat) to a
wall-clock instant, or it fails to parse. -/
inductive Timestamp where
  | valid : Int → Timestamp
  | invalid : Timestamp
deriving DecidableEq

/-- An appointment record; `none` for a field models both an absent key and an
empty string (both falsy under the `.get` checks of the source). -/
structure Appointment where
  technicianId : Option String
  userId : Option String
  startDate : Option Timestamp
  endDate : Option Timestamp
deriving DecidableEq

/-- Business hours for a day (src/availability.py lines 20-29). -/
structure BusinessHours where
  open_time : Option Nat
  close_time : Option Nat
deriving DecidableEq

/-- is_open property: both bounds present. -/
def BusinessHours.is_open (bh : BusinessHours) : Bool :=
  bh.open_time.isSome && bh.close_time.isSome

/-- One weekday entry of the business_hours configuration; each field is the
parsed "HH:MM" value, `none` when the key is absent or the string falsy. -/
structure DayHours where
  openM : Option Nat
  closeM : Option Nat

/-- The configuration dictionary: weekly schedule (weekday index 0..6 to an
optional day entry), default slot duration, optional slot interval. -/
structure Config where
  businessHours : Nat → Option DayHours
  defaultSlotDurationMinutes : Int
  slotIntervalMinutes : Option Nat

/-- All configured times parse below 24:00, as produced by strptime "HH:MM". -/
def ValidTimes (cfg : Config) : Prop :=
  ∀ w dh, cfg.businessHours w = some dh →
    (∀ o, dh.openM = some o → o < 1440) ∧ (∀ c, dh.closeM = some c → c < 1440)

/-- A bookable time slot (src/availability.py lines 10-17); `end` is a Lean
keyword, hence endTime. -/
structure TimeSlot where
  start : Nat
  endTime : Nat
  available_techs : Nat
  available_tech_ids : List String
deriving DecidableEq

/-- datetime.combine(date, t): absolute minutes of time-of-day t on day d. -/
def dtm (d : Nat) (t : Nat) : Int := (d : Int) * 1440 + t

/-- get_business_hours (lines 99-116): look the weekday up in the schedule;
absent entry, or missing or falsy open or close, means closed. -/
def getBusinessHours (cfg : Config) (date : Nat) : BusinessHours :=
  match cfg.businessHours (date % 7) with
  | none => ⟨none, none⟩
  | some dh =>
    match dh.openM, dh.closeM with
    | some o, some c => ⟨some o, some c⟩
    | _, _ => ⟨none, none⟩

/-- Python `x or y` on two optional strings: the empty string is falsy. -/
def truthyOr (x y : Option String) : Option String :=
  match x with
  | some s => if s = "" then y else some s
  | none => y

/-- The attribution value `appt.get(\x22technicianId\x22) or appt.get(\x22userId\x22)`
used by the filtering path of check_slot_conflicts (line 219). -/
def resolvedId (a : Appointment) : Option String :=
  truthyOr a.technicianId a.userId

/-- The index key of index_appointments_by_tech (lines 180-181): the resolved
id when it is truthy, otherwise the appointment is unattributable. -/
def getTechId (a : Appointment) : Option String :=
  match resolvedId a with
  | some s => if s = "" then none else some s
  | none => none

/-- parse_appointment_times (lines 144-163): both timestamps present and
parseable, else None. -/
def parseAppointmentTimes (a : Appointment) : Option (Int × Int) :=
  match a.startDate, a.endDate with
  | some (.valid s), some (.valid e) => some (s, e)
  | _, _ => none

/-- Association-list lookup with a default, modelling dict.get(k, d). -/
def lookupD {α β : Type} [DecidableEq α] (l : List (α × β)) (k : α) (dflt : β) : β :=
  match l with
  | [] => dflt
  | (k2, v) :: rest => if k2 = k then v else lookupD rest k dflt

/-- Indexing by technician id, a mapping from id to appointment list. -/
abbrev TechIndex := List (String × List Appointment)

/-- Append an appointment to the entry of key t, creating the entry at the end
when absent (dict insertion order). -/
def addToIndex (idx : TechIndex) (t : String) (a : Appointment) : TechIndex :=
  match idx with
  | [] => [(t, [a])]
  | (k, l) :: rest => if k = t then (k, l ++ [a]) :: rest else (k, l) :: addToIndex rest t a

/-- index_appointments_by_tech (lines 166-185): group appointments under their
truthy resolved technician id, skipping unattributable records. -/
def indexAppointmentsByTech (appointments : List Appointment) : TechIndex :=
  appointments.foldl
    (fun idx a =>
      match getTechId a with
      | some t => addToIndex idx t a
      | none => idx)
    []

/-- The per-appointment overlap test of check_slot_conflicts (lines 222-237):
unparseable records contribute no conflict; otherwise the strict half-open
intersection test. -/
def apptOverlaps (slotStartDt slotEndDt : Int) (a : Appointment) : Bool :=
  match parseAppointmentTimes a with
  | none => false
  | some (s, e) => decide (s < slotEndDt) && decide (e > slotStartDt)

/-- check_slot_conflicts (lines 188-239): combine the date with the slot
bounds, pick the appointment list of the technician (indexed lookup when the
index is supplied, else a filter over the full list), and report any overlap. -/
def checkSlotConflicts (slotStart slotEnd : Nat) (date : Nat)
    (appointments : List Appointment) (techId : String)
    (indexedAppointments : Option TechIndex) : Bool :=
  let slotStartDt : Int := dtm date slotStart
  let slotEndDt : Int := dtm date slotEnd
  let techAppointments :=
    match indexedAppointments with
    | some idx => lookupD idx techId []
    | none => appointments.filter (fun a => decide (resolvedId a = some techId))
  techAppointments.any (fun a => apptOverlaps slotStartDt slotEndDt a)

/-- The bounded scan of get_next_business_day (lines 246-250): up to k days,
return the first open one. -/
def nextOpenScan (cfg : Config) : Nat → Nat → Option Nat
  | 0, _ => none
  | k + 1, d => if (getBusinessHours cfg d).is_open then some d else nextOpenScan cfg k (d + 1)

/-- get_next_business_day (lines 242-251): first open day among the 7 days
after the given one. -/
def getNextBusinessDay (cfg : Config) (date : Nat) : Option Nat :=
  nextOpenScan cfg 7 (date + 1)

/-- Outcome of calculate_days_needed: a returned plan, the None outcome, a
raised exception (unreachable), or non-termination of the source loop
(modelled as fuel exhaustion). -/
inductive DNRes where
  | found : List (Nat × Int) → DNRes
  | infeasible : DNRes
  | error : DNRes
  | diverged : DNRes
deriving DecidableEq

/-- The while loop of calculate_days_needed (lines 293-308), one fuel unit per
iteration.  Each iteration finds the next business day, consumes
min(remaining, that day
total open minutes), appends the span, and subtracts the day total (not the
consumed amount) from remaining. -/
def daysLoop (cfg : Config) : Nat → Nat → Int → DNRes
  | 0, _, remaining => if 0 < remaining then .diverged else .found []
  | fuel + 1, checkDate, remaining =>
    if 0 < remaining then
      match getNextBusinessDay cfg checkDate with
      | none => .infeasible
      | some nextDay =>
        match (getBusinessHours cfg nextDay).open_time, (getBusinessHours cfg nextDay).close_time with
        | some o, some c =>
          let dayMinutes : Int := (c : Int) - o
          let minutesOnThisDay := min remaining dayMinutes
          match daysLoop cfg fuel nextDay (remaining - dayMinutes) with
          | .found l => .found ((nextDay, minutesOnThisDay) :: l)
          | r => r
        | _, _ => .error
    else .found []

/-- calculate_days_needed (lines 254-310).  Closed start day is the None
outcome; a fitting duration yields the single-day plan; otherwise the first
span runs from the start time to close and the loop consumes further days. -/
def calculateDaysNeeded (cfg : Config) (fuel : Nat) (durationMinutes : Int)
    (startDate : Nat) (startTime : Nat) : DNRes :=
  match (getBusinessHours cfg startDate).open_time, (getBusinessHours cfg startDate).close_time with
  | some _, some c =>
    let minutesUntilClose : Int := (c : Int) - startTime
    if durationMinutes ≤ minutesUntilClose then .found [(startDate, durationMinutes)]
    else
      match daysLoop cfg fuel startDate (durationMinutes - minutesUntilClose) with
      | .found l => .found ((startDate, minutesUntilClose) :: l)
      | r => r
  | _, _ => .infeasible

/-- The subsequent-day loop of check_tech_multiday_availability (lines
356-382): each further span needs the day open and the technician free from
the day open time for the required minutes, against that day appointment
snapshot (missing key = empty list), pre-indexed for the check. -/
def checkFutureDays (techId : String) (futureAppointments : List (Nat × List Appointment))
    (cfg : Config) : List (Nat × Int) → Bool
  | [] => true
  | (d, m) :: rest =>
    match (getBusinessHours cfg d).open_time, (getBusinessHours cfg d).close_time with
    | some o, some _ =>
      let neededEnd : Nat := (((o : Int) + m) % 1440).toNat
      let dayAppointments := lookupD futureAppointments d []
      let indexedFuture := indexAppointmentsByTech dayAppointments
      if checkSlotConflicts o neededEnd d dayAppointments techId (some indexedFuture) then false
      else checkFutureDays techId futureAppointments cfg rest
    | _, _ => false

/-- check_tech_multiday_availability (lines 313-384): empty plan is
unavailable; day 1 is checked from the start time to the first-day close
against the first-day snapshot; then every further span via checkFutureDays. -/
def checkTechMultidayAvailability (techId : String) (daysNeeded : List (Nat × Int))
    (firstDayAppointments : List Appointment) (firstDayStartTime firstDayCloseTime : Nat)
    (futureAppointments : List (Nat × List Appointment)) (cfg : Config)
    (indexedFirstDay : Option TechIndex) : Bool :=
  match daysNeeded with
  | [] => false
  | (firstDate, _) :: rest =>
    if checkSlotConflicts firstDayStartTime firstDayCloseTime firstDate
        firstDayAppointments techId indexedFirstDay then false
    else checkFutureDays techId futureAppointments cfg rest

/-- The while loop of generate_slot_start_times (lines 404-406): emit the
current time and advance by the interval while strictly before close.  Fuel
close - open is sufficient whenever the interval is positive. -/
def genStartsAux (close interval : Nat) : Nat → Nat → List Nat
  | 0, _ => []
  | fuel + 1, current =>
    if current < close then current :: genStartsAux close interval fuel (current + interval)
    else []

/-- generate_slot_start_times (lines 387-408).  A zero interval makes the
source loop forever; that case is excluded by the positive-interval hypotheses
of every statement below (the [] returned for it here is never relied on). -/
def generateSlotStartTimes (bh : BusinessHours) (slotIntervalMinutes : Nat) : List Nat :=
  match bh.open_time, bh.close_time with
  | some o, some c =>
    if 0 < slotIntervalMinutes then genStartsAux c slotIntervalMinutes (c - o) o else []
  | _, _ => []

/-- Model of _calculate_multiday_slot_availability (lines 519-564): the technicians,
in input order, that pass the multi-day availability check. -/
def calcMultidaySlotAvailability (techIds : List String) (daysNeeded : List (Nat × Int))
    (firstDayAppointments : List Appointment) (firstDayStartTime : Nat)
    (firstDayCloseTime : Nat) (futureAppointments : List (Nat × List Appointment))
    (cfg : Config) (indexedAppointments : TechIndex) : List String :=
  techIds.filter (fun t =>
    checkTechMultidayAvailability t daysNeeded firstDayAppointments firstDayStartTime
      firstDayCloseTime futureAppointments cfg (some indexedAppointments))

/-- The per-candidate body of the loop of calculate_available_slots (lines
457-514).  Outer none models a planner that never returns (or raises); some
none is a skipped candidate; some (some ts) an emitted slot. -/
def slotForStart (cfg : Config) (fuel : Nat) (date : Nat) (techIds : List String)
    (appointments : List Appointment) (slotDurationMinutes : Int)
    (futureAppointments : List (Nat × List Appointment)) (closeTime : Nat)
    (indexedAppointments : TechIndex) (s : Nat) : Option (Option TimeSlot) :=
  match calculateDaysNeeded cfg fuel slotDurationMinutes date s with
  | .diverged => none
  | .error => none
  | .infeasible => some none
  | .found daysNeeded =>
    if 1 < daysNeeded.length then
      let av := calcMultidaySlotAvailability techIds daysNeeded appointments s
        closeTime futureAppointments cfg indexedAppointments
      if av.isEmpty then some none
      else some (some ⟨s, closeTime, av.length, av⟩)
    else
      let slotEnd : Nat := (((s : Int) + slotDurationMinutes) % 1440).toNat
      let av := techIds.filter (fun t =>
        !(checkSlotConflicts s slotEnd date appointments t (some indexedAppointments)))
      if av.isEmpty then some none
      else some (some ⟨s, slotEnd, av.length, av⟩)

/-- The candidate loop of calculate_available_slots, in slot-start order. -/
def slotsLoop (cfg : Config) (fuel : Nat) (date : Nat) (techIds : List String)
    (appointments : List Appointment) (slotDurationMinutes : Int)
    (futureAppointments : List (Nat × List Appointment)) (closeTime : Nat)
    (indexedAppointments : TechIndex) : List Nat → Option (List TimeSlot)
  | [] => some []
  | s :: rest =>
    match slotForStart cfg fuel date techIds appointments slotDurationMinutes
        futureAppointments closeTime indexedAppointments s with
    | none => none
    | some none =>
      slotsLoop cfg fuel date techIds appointments slotDurationMinutes
        futureAppointments closeTime indexedAppointments rest
    | some (some ts) =>
      match slotsLoop cfg fuel date techIds appointments slotDurationMinutes
          futureAppointments closeTime indexedAppointments rest with
      | none => none
      | some l => some (ts :: l)

/-- calculate_available_slots (lines 411-516): closed day yields the empty
list; otherwise resolve the duration default, index the appointments once,
generate the slot starts at the configured interval (default 60) and run the
candidate loop. -/
def calculateAvailableSlots (cfg : Config) (fuel : Nat) (date : Nat)
    (techIds : List String) (appointments : List Appointment)
    (slotDurationMinutes : Option Int)
    (futureAppointments : List (Nat × List Appointment)) : Option (List TimeSlot) :=
  match (getBusinessHours cfg date).open_time, (getBusinessHours cfg date).close_time with
  | some o, some c =>
    let sdm := slotDurationMinutes.getD cfg.defaultSlotDurationMinutes
    let indexedAppointments := indexAppointmentsByTech appointments
    let interval := cfg.slotIntervalMinutes.getD 60
    let starts := generateSlotStartTimes ⟨some o, some c⟩ interval
    slotsLoop cfg fuel date techIds appointments sdm futureAppointments c
      indexedAppointments starts
  | _, _ => some []

/-- is_slot_available (lines 567-589), the slot re-validator. -/
def isSlotAvailable (date : Nat) (slotStart slotEnd : Nat) (techIds : List String)
    (appointments : List Appointment) : Bool × List String :=
  let available := techIds.filter (fun t =>
    !(checkSlotConflicts slotStart slotEnd date appointments t none))
  (decide (0 < available.length), available)

/-- An appointment overlaps the window [s, e) in the half-open sense. -/
def OverlapsWindow (s e : Int) (a : Appointment) : Prop :=
  ∃ as ae, parseAppointmentTimes a = some (as, ae) ∧ as < e ∧ ae > s

/-- Some appointment of the list, attributed (with a truthy id) to the given
technician, overlaps the window [s, e). -/
def TechConflict (l : List Appointment) (techId : String) (s e : Int) : Prop :=
  ∃ a ∈ l, getTechId a = some techId ∧ OverlapsWindow s e a

/-! ### Lemmas about the appointment index and the conflict checker -/

lemma lookupD_addToIndex (idx : TechIndex) (t : String) (a : Appointment) (t2 : String) :
    lookupD (addToIndex idx t a) t2 [] =
      if t = t2 then lookupD idx t2 [] ++ [a] else lookupD idx t2 [] := by
  induction idx with
  | nil =>
    by_cases h : t = t2 <;> simp [addToIndex, lookupD, h]
  | cons kv rest ih =>
    obtain ⟨k, l⟩ := kv
    by_cases hk : k = t
    · subst hk
      by_cases h2 : k = t2
      · subst h2; simp [addToIndex, lookupD]
      · simp [addToIndex, lookupD, h2]
    · by_cases h2 : k = t2
      · subst h2
        have ht2 : t ≠ k := fun h => hk h.symm
        simp [addToIndex, lookupD, hk, ht2]
      · simp [addToIndex, lookupD, hk, h2, ih]

lemma lookupD_indexFold (l : List Appointment) :
    ∀ (idx : TechIndex) (t : String),
      lookupD
        (l.foldl
          (fun idx a =>
            match getTechId a with
            | some u => addToIndex idx u a
            | none => idx)
          idx) t []
        = lookupD idx t [] ++ l.filter (fun a => decide (getTechId a = some t)) := by
  induction l with
  | nil => intro idx t; simp
  | cons a l ih =>
    intro idx t
    simp only [List.foldl_cons, List.filter_cons]
    cases hid : getTechId a with
    | none =>
      simp only [hid]
      rw [ih]
      simp [hid]
    | some u =>
      by_cases hu : u = t
      · subst hu
        simp only [hid]
        rw [ih, lookupD_addToIndex]
        simp [hid]
      · have : ¬ (getTechId a = some t) := by simp [hid, hu]
        simp only [hid]
        rw [ih, lookupD_addToIndex]
        simp [this, hu]

lemma lookupD_index (l : List Appointment) (t : String) :
    lookupD (indexAppointmentsByTech l) t []
      = l.filter (fun a => decide (getTechId a = some t)) := by
  have := lookupD_indexFold l [] t
  simpa [indexAppointmentsByTech, lookupD] using this

lemma apptOverlaps_eq_true (s e : Int) (a : Appointment) :
    apptOverlaps s e a = true ↔ OverlapsWindow s e a := by
  unfold apptOverlaps OverlapsWindow
  cases hp : parseAppointmentTimes a with
  | none => simp [hp]
  | some p =>
    obtain ⟨ps, pe⟩ := p
    simp only [hp, Bool.and_eq_true, decide_eq_true_eq]
    constructor
    · rintro ⟨h1, h2⟩
      exact ⟨ps, pe, rfl, h1, h2⟩
    · rintro ⟨as, ae, heq, h1, h2⟩
      injection heq with heq2
      injection heq2 with e1 e2
      subst e1
      subst e2
      exact ⟨h1, h2⟩

lemma checkSlotConflicts_indexed_iff (slotStart slotEnd date : Nat)
    (l : List Appointment) (techId : String) :
    checkSlotConflicts slotStart slotEnd date l techId (some (indexAppointmentsByTech l)) = true
      ↔ TechConflict l techId (dtm date slotStart) (dtm date slotEnd) := by
  simp only [checkSlotConflicts, TechConflict]
  rw [lookupD_index]
  simp [List.any_eq_true, List.mem_filter, apptOverlaps_eq_true]

lemma checkSlotConflicts_none_iff (slotStart slotEnd date : Nat)
    (l : List Appointment) (techId : String) :
    checkSlotConflicts slotStart slotEnd date l techId none = true
      ↔ ∃ a ∈ l, resolvedId a = some techId ∧
          OverlapsWindow (dtm date slotStart) (dtm date slotEnd) a := by
  unfold checkSlotConflicts
  simp [List.any_eq_true, List.mem_filter, apptOverlaps_eq_true, and_assoc]

lemma getTechId_eq_some_iff (a : Appointment) (t : String) (ht : t ≠ "") :
    getTechId a = some t ↔ resolvedId a = some t := by
  unfold getTechId
  cases hr : resolvedId a with
  | none => simp
  | some s =>
    by_cases hs : s = ""
    · subst hs
      simp [Ne.symm ht]
    · simp [hs]

/-- C1: for every candidate interval on a date, technician id and appointment
list, check_slot_conflicts (filtering path) reports a conflict iff some
appointment attributed to that technician has parseable timestamps with
appointment_start < slot_end and appointment_end > slot_start, the strict
half-open intersection; in particular boundary-touching appointments never
conflict and an empty attributed list yields no conflict. -/
theorem claim_C1 (slotStart slotEnd date : Nat) (appointments : List Appointment)
    (techId : String) :
    checkSlotConflicts slotStart slotEnd date appointments techId none = true
      ↔ ∃ a ∈ appointments, resolvedId a = some techId ∧
          ∃ as ae, parseAppointmentTimes a = some (as, ae) ∧
            as < dtm date slotEnd ∧ ae > dtm date slotStart := by
  rw [checkSlotConflicts_none_iff]
  unfold OverlapsWindow
  tauto

/-- C6 counterexample input: an appointment whose technicianId is absent and
whose userId is the empty string, overlapping any slot on day 0. -/
def a6 : Appointment := ⟨none, some "", some (.valid 0), some (.valid 100000)⟩

/-- C6 counterexample: for the empty-string technician id, the raw filtering
path attributes a6 (Python (None or \x22\x22) == \x22\x22) and reports a conflict,
while the pre-indexed path drops a6 (falsy key) and reports none, so the two
paths are not equal for every technician id. -/
theorem claim_C6_cex :
    checkSlotConflicts 0 60 0 [a6] "" none = true
      ∧ checkSlotConflicts 0 60 0 [a6] "" (some (indexAppointmentsByTech [a6])) = false := by
  constructor <;> rfl

/-- C6 (amended): for every non-empty technician id, check_slot_conflicts
returns the same boolean on the raw appointment list as on the pre-built
index produced by index_appointments_by_tech from that same list. -/
theorem claim_C6 (slotStart slotEnd date : Nat) (appointments : List Appointment)
    (techId : String) (ht : techId ≠ "") :
    checkSlotConflicts slotStart slotEnd date appointments techId
        (some (indexAppointmentsByTech appointments))
      = checkSlotConflicts slotStart slotEnd date appointments techId none := by
  simp only [checkSlotConflicts]
  rw [lookupD_index]
  have : appointments.filter (fun a => decide (getTechId a = some techId))
      = appointments.filter (fun a => decide (resolvedId a = some techId)) := by
    apply List.filter_congr
    intro a _
    simp [getTechId_eq_some_iff a techId ht]
  rw [this]

/-- C6 witness for the amended theorem, at a concrete non-empty id. -/
theorem claim_C6_witness :
    checkSlotConflicts 0 60 0 [a6] "T1" (some (indexAppointmentsByTech [a6]))
      = checkSlotConflicts 0 60 0 [a6] "T1" none :=
  claim_C6 0 60 0 [a6] "T1" (by decide)

/-- C7: a record whose timestamps are missing or unparseable, or which
carries neither technician field, contributes no conflict on either path of
check_slot_conflicts (the record is skipped, the computation returns
normally), and an unattributable record is excluded from every technician
entry of the index. -/
theorem claim_C7 (a : Appointment)
    (ha : parseAppointmentTimes a = none ∨ (a.technicianId = none ∧ a.userId = none)) :
    ∀ (slotStart slotEnd date : Nat) (appointments : List Appointment) (techId : String),
      checkSlotConflicts slotStart slotEnd date (a :: appointments) techId none
          = checkSlotConflicts slotStart slotEnd date appointments techId none
      ∧ checkSlotConflicts slotStart slotEnd date appointments techId
            (some (indexAppointmentsByTech (a :: appointments)))
          = checkSlotConflicts slotStart slotEnd date appointments techId
            (some (indexAppointmentsByTech appointments))
      ∧ (a.technicianId = none → a.userId = none →
          ∀ t : String, a ∉ lookupD (indexAppointmentsByTech (a :: appointments)) t []) := by
  intro slotStart slotEnd date appointments techId
  refine ⟨?_, ?_, ?_⟩
  · cases ha with
    | inl hp =>
      unfold checkSlotConflicts
      simp [List.filter_cons, apptOverlaps, hp]
      split <;> simp [apptOverlaps, hp]
    | inr hu =>
      obtain ⟨h1, h2⟩ := hu
      have : resolvedId a = none := by simp [resolvedId, h1, h2, truthyOr]
      unfold checkSlotConflicts
      simp [List.filter_cons, this]
  · simp only [checkSlotConflicts]
    rw [lookupD_index, lookupD_index]
    cases ha with
    | inl hp =>
      simp only [List.filter_cons]
      split <;> simp [apptOverlaps, hp]
    | inr hu =>
      obtain ⟨h1, h2⟩ := hu
      have : getTechId a = none := by simp [getTechId, resolvedId, h1, h2, truthyOr]
      simp [List.filter_cons, this]
  · intro h1 h2 t
    have hg : getTechId a = none := by simp [getTechId, resolvedId, h1, h2, truthyOr]
    rw [lookupD_index]
    intro hmem
    have h3 := (List.mem_filter.mp hmem).2
    rw [hg] at h3
    simp at h3

/-- C7 witness: a record with both timestamps missing is skipped by the
filtering path at a concrete slot. -/
theorem claim_C7_witness :
    checkSlotConflicts 0 60 0 [(⟨some "T1", none, none, none⟩ : Appointment)] "T1" none
      = checkSlotConflicts 0 60 0 [] "T1" none :=
  (claim_C7 ⟨some "T1", none, none, none⟩ (Or.inl rfl) 0 60 0 [] "T1").1

/-! ### Slot generator bounds (C5) -/

lemma genStartsAux_mem (close interval : Nat) :
    ∀ (fuel current t : Nat), t ∈ genStartsAux close interval fuel current →
      current ≤ t ∧ t < close := by
  intro fuel
  induction fuel with
  | zero => intro current t ht; simp [genStartsAux] at ht
  | succ n ih =>
    intro current t ht
    rw [genStartsAux] at ht
    by_cases hc : current < close
    · rw [if_pos hc] at ht
      rcases List.mem_cons.mp ht with rfl | hmem
      · exact ⟨le_refl _, hc⟩
      · have h2 := ih (current + interval) t hmem
        exact ⟨le_trans (Nat.le_add_right _ _) h2.1, h2.2⟩
    · rw [if_neg hc] at ht; cases ht

/-- C5 counterexample: with hours 09:00-10:30 and a 60-minute interval the
generator emits 10:00, and 10:00 plus the interval exceeds the close time, so
the claim that no emitted start plus the interval ever exceeds close is false
(the loop condition only bounds the start itself). -/
theorem claim_C5_cex :
    600 ∈ generateSlotStartTimes ⟨some 540, some 630⟩ 60 ∧ 630 < 600 + 60 := by
  constructor
  · decide
  · decide

/-- C5 (amended): for every open BusinessHours and every positive interval,
every slot-start time emitted by generate_slot_start_times is at least the
open time and strictly before the close time (the start-plus-interval bound
of the original claim does not hold and is dropped). -/
theorem claim_C5 (o c i t : Nat) (hi : 0 < i)
    (ht : t ∈ generateSlotStartTimes ⟨some o, some c⟩ i) : o ≤ t ∧ t < c := by
  simp only [generateSlotStartTimes] at ht
  rw [if_pos hi] at ht
  exact genStartsAux_mem c i (c - o) o t ht

/-- C5 witness: concrete open hours, positive interval, emitted start. -/
theorem claim_C5_witness :
    0 < 60 ∧ 540 ∈ generateSlotStartTimes ⟨some 540, some 630⟩ 60 ∧ (540 ≤ 540 ∧ 540 < 630) :=
  ⟨by decide, by decide, claim_C5 540 630 60 540 (by decide) (by decide)⟩

/-! ### Day-span planner: conservation (C3) and non-termination (C4) -/

lemma daysLoop_found_nil (cfg : Config) (fuel cd : Nat) (rem : Int) (hrem : ¬ 0 < rem) :
    daysLoop cfg fuel cd rem = .found [] := by
  cases fuel <;> simp [daysLoop, hrem]

lemma daysLoop_sum (cfg : Config) :
    ∀ (fuel cd : Nat) (rem : Int) (l : List (Nat × Int)),
      0 < rem → daysLoop cfg fuel cd rem = .found l → (l.map Prod.snd).sum = rem := by
  intro fuel
  induction fuel with
  | zero =>
    intro cd rem l hrem h
    simp [daysLoop, hrem] at h
  | succ n ih =>
    intro cd rem l hrem h
    rw [daysLoop.eq_def] at h
    dsimp only at h
    rw [if_pos hrem] at h
    rcases hnext : getNextBusinessDay cfg cd with _ | nextDay <;> rw [hnext] at h <;>
      dsimp only at h
    · cases h
    · rcases ho : (getBusinessHours cfg nextDay).open_time with _ | o <;>
        rcases hc : (getBusinessHours cfg nextDay).close_time with _ | c <;>
        rw [ho, hc] at h <;> dsimp only at h
      · cases h
      · cases h
      · cases h
      · rcases hrec : daysLoop cfg n nextDay (rem - ((c : Int) - o)) with l2 | _ | _ | _ <;>
          rw [hrec] at h <;> dsimp only at h
        · injection h with h
          subst h
          simp only [List.map_cons, List.sum_cons]
          by_cases hrem2 : 0 < rem - ((c : Int) - o)
          · have hsum := ih nextDay (rem - ((c : Int) - o)) l2 hrem2 hrec
            rw [hsum, min_def]
            split <;> omega
          · rw [daysLoop_found_nil cfg n nextDay _ hrem2] at hrec
            injection hrec with hrec
            subst hrec
            simp only [List.map_nil, List.sum_nil]
            rw [min_def]
            split <;> omega
        · cases h
        · cases h
        · cases h

/-- C3: whenever calculate_days_needed returns a plan, the sum of the
minutes_required over all returned DaySpans equals the requested total
duration exactly (this covers the single-day case and the multi-day case of
the claim alike). -/
theorem claim_C3 (cfg : Config) (fuel : Nat) (dur : Int) (d0 t0 : Nat)
    (plan : List (Nat × Int))
    (h : calculateDaysNeeded cfg fuel dur d0 t0 = .found plan) :
    (plan.map Prod.snd).sum = dur := by
  rw [calculateDaysNeeded.eq_def] at h
  rcases ho : (getBusinessHours cfg d0).open_time with _ | o <;>
    rcases hc : (getBusinessHours cfg d0).close_time with _ | c <;>
    rw [ho, hc] at h <;> dsimp only at h
  · cases h
  · cases h
  · cases h
  · by_cases hfit : dur ≤ (c : Int) - t0
    · rw [if_pos hfit] at h
      injection h with h
      subst h
      simp
    · rw [if_neg hfit] at h
      rcases hrec : daysLoop cfg fuel d0 (dur - ((c : Int) - t0)) with l2 | _ | _ | _ <;>
        rw [hrec] at h <;> dsimp only at h
      · injection h with h
        subst h
        simp only [List.map_cons, List.sum_cons]
        have hrem : 0 < dur - ((c : Int) - t0) := by omega
        rw [daysLoop_sum cfg fuel d0 _ l2 hrem hrec]
        omega
      · cases h
      · cases h
      · cases h

/-- Test configuration: every weekday open 09:00-17:00, default duration 60. -/
def cfg2 : Config := ⟨fun _ => some ⟨some 540, some 1020⟩, 60, none⟩

/-- C3 witness: a 600-minute service starting day 0 at 09:00 spans
(day 0, 480) and (day 1, 120), and the spans sum to 600. -/
theorem claim_C3_witness :
    ((([((0 : Nat), (480 : Int)), ((1 : Nat), (120 : Int))]).map Prod.snd).sum = (600 : Int)) :=
  claim_C3 cfg2 5 600 0 540 [(0, 480), (1, 120)] (by decide)

/-- Failing configuration for C4: every weekday open 09:00-09:00, a
zero-width day that validate_config accepts. -/
def badCfg : Config := ⟨fun _ => some ⟨some 540, some 540⟩, 60, none⟩

lemma daysLoop_badCfg (rem : Int) (hrem : 0 < rem) :
    ∀ (fuel cd : Nat), daysLoop badCfg fuel cd rem = .diverged := by
  intro fuel
  induction fuel with
  | zero => intro cd; simp [daysLoop, hrem]
  | succ n ih =>
    intro cd
    rw [daysLoop.eq_def]
    dsimp only
    rw [if_pos hrem]
    have hnext : getNextBusinessDay badCfg cd = some (cd + 1) := rfl
    rw [hnext]
    dsimp only
    have hbh : getBusinessHours badCfg (cd + 1) = ⟨some 540, some 540⟩ := rfl
    rw [hbh]
    dsimp only
    have hz : rem - (((540 : Nat) : Int) - ((540 : Nat) : Int)) = rem := by omega
    rw [hz, ih (cd + 1)]

/-- C4: the claim that calculate_days_needed is total fails on the code: on a
configuration whose open days have a zero-width open interval (accepted by
validate_config), the while loop subtracts zero from the outstanding minutes
on every iteration and never terminates; the fuelled embedding exhausts any
amount of fuel.  Duration 60, start day 0 at 09:00. -/
theorem claim_C4_diverges :
    ∀ fuel : Nat, calculateDaysNeeded badCfg fuel 60 0 540 = .diverged := by
  intro fuel
  have h0 : getBusinessHours badCfg 0 = ⟨some 540, some 540⟩ := rfl
  rw [calculateDaysNeeded, h0]
  simp only []
  rw [if_neg (by decide : ¬ (60 : Int) ≤ ((540 : Nat) : Int) - ((540 : Nat) : Int))]
  rw [daysLoop_badCfg (60 - (((540 : Nat) : Int) - ((540 : Nat) : Int))) (by decide) fuel 0]

/-! ### Multi-day availability (C2) -/

lemma validTimes_close (cfg : Config) (hv : ValidTimes cfg) (d c : Nat)
    (hc : (getBusinessHours cfg d).close_time = some c) : c < 1440 := by
  rw [getBusinessHours.eq_def] at hc
  rcases hdh : cfg.businessHours (d % 7) with _ | dh <;> rw [hdh] at hc <;> dsimp only at hc
  · cases hc
  · rcases hop : dh.openM with _ | o2 <;> rcases hcl : dh.closeM with _ | c2 <;>
      rw [hop, hcl] at hc <;> dsimp only at hc
    · cases hc
    · cases hc
    · cases hc
    · injection hc with hc
      subst hc
      exact (hv _ dh hdh).2 c2 hcl

lemma daysLoop_spans (cfg : Config) :
    ∀ (fuel cd : Nat) (rem : Int) (l : List (Nat × Int)),
      0 < rem → daysLoop cfg fuel cd rem = .found l →
      l ≠ [] ∧ ∀ p ∈ l, ∃ o c,
        (getBusinessHours cfg p.1).open_time = some o ∧
        (getBusinessHours cfg p.1).close_time = some c ∧
        0 ≤ (o : Int) + p.2 ∧ (o : Int) + p.2 ≤ c := by
  intro fuel
  induction fuel with
  | zero =>
    intro cd rem l hrem h
    simp [daysLoop, hrem] at h
  | succ n ih =>
    intro cd rem l hrem h
    rw [daysLoop.eq_def] at h
    dsimp only at h
    rw [if_pos hrem] at h
    rcases hnext : getNextBusinessDay cfg cd with _ | nextDay <;> rw [hnext] at h <;>
      dsimp only at h
    · cases h
    · rcases ho : (getBusinessHours cfg nextDay).open_time with _ | o <;>
        rcases hc : (getBusinessHours cfg nextDay).close_time with _ | c <;>
        rw [ho, hc] at h <;> dsimp only at h
      · cases h
      · cases h
      · cases h
      · rcases hrec : daysLoop cfg n nextDay (rem - ((c : Int) - o)) with l2 | _ | _ | _ <;>
          rw [hrec] at h <;> dsimp only at h
        · injection h with h
          subst h
          refine ⟨by simp, ?_⟩
          intro p hp
          rcases List.mem_cons.mp hp with rfl | hmem
          · refine ⟨o, c, ho, hc, ?_, ?_⟩ <;> (rw [min_def]; split <;> omega)
          · by_cases hrem2 : 0 < rem - ((c : Int) - o)
            · exact (ih nextDay (rem - ((c : Int) - o)) l2 hrem2 hrec).2 p hmem
            · rw [daysLoop_found_nil cfg n nextDay _ hrem2] at hrec
              injection hrec with hrec
              subst hrec
              cases hmem
        · cases h
        · cases h
        · cases h

lemma calcDN_found_shape (cfg : Config) (fuel : Nat) (dur : Int) (d0 t0 : Nat)
    (plan : List (Nat × Int))
    (h : calculateDaysNeeded cfg fuel dur d0 t0 = .found plan) :
    ∃ o c, (getBusinessHours cfg d0).open_time = some o ∧
      (getBusinessHours cfg d0).close_time = some c ∧
      ((dur ≤ (c : Int) - t0 ∧ plan = [(d0, dur)]) ∨
       (¬ dur ≤ (c : Int) - t0 ∧ ∃ l,
          daysLoop cfg fuel d0 (dur - ((c : Int) - t0)) = .found l ∧
          plan = (d0, (c : Int) - t0) :: l)) := by
  rw [calculateDaysNeeded.eq_def] at h
  rcases ho : (getBusinessHours cfg d0).open_time with _ | o <;>
    rcases hc : (getBusinessHours cfg d0).close_time with _ | c <;>
    rw [ho, hc] at h <;> dsimp only at h
  · cases h
  · cases h
  · cases h
  · refine ⟨o, c, rfl, rfl, ?_⟩
    by_cases hfit : dur ≤ (c : Int) - t0
    · rw [if_pos hfit] at h
      injection h with h
      exact Or.inl ⟨hfit, h.symm⟩
    · rw [if_neg hfit] at h
      rcases hrec : daysLoop cfg fuel d0 (dur - ((c : Int) - t0)) with l2 | _ | _ | _ <;>
        rw [hrec] at h <;> dsimp only at h
      · injection h with h
        exact Or.inr ⟨hfit, l2, rfl, h.symm⟩
      · cases h
      · cases h
      · cases h

lemma checkFutureDays_iff (cfg : Config) (hv : ValidTimes cfg) (tech : String)
    (fut : List (Nat × List Appointment)) :
    ∀ rest : List (Nat × Int),
      (∀ p ∈ rest, ∃ o c,
        (getBusinessHours cfg p.1).open_time = some o ∧
        (getBusinessHours cfg p.1).close_time = some c ∧
        0 ≤ (o : Int) + p.2 ∧ (o : Int) + p.2 ≤ c) →
      (checkFutureDays tech fut cfg rest = true ↔
        ∀ p ∈ rest, ∀ o, (getBusinessHours cfg p.1).open_time = some o →
          ¬ TechConflict (lookupD fut p.1 []) tech (dtm p.1 o) (dtm p.1 o + p.2)) := by
  intro rest
  induction rest with
  | nil => intro _; simp [checkFutureDays]
  | cons p rest ih =>
    intro hspans
    obtain ⟨o, c, ho, hc, hnn, hle⟩ := hspans p (List.mem_cons_self p rest)
    obtain ⟨d, m⟩ := p
    rw [checkFutureDays.eq_def]
    dsimp only at ho hc ⊢
    rw [ho, hc]
    dsimp only
    have hc1440 : c < 1440 := validTimes_close cfg hv d c hc
    have hend : (((((o : Int) + m) % 1440).toNat : Nat) : Int) = (o : Int) + m := by
      rw [Int.emod_eq_of_lt hnn (by omega)]
      exact Int.toNat_of_nonneg hnn
    have hdtm : dtm d ((((o : Int) + m) % 1440).toNat) = dtm d o + m := by
      unfold dtm
      rw [hend]
      ring
    by_cases hcheck : checkSlotConflicts o ((((o : Int) + m) % 1440).toNat) d
        (lookupD fut d []) tech (some (indexAppointmentsByTech (lookupD fut d []))) = true
    · rw [if_pos hcheck]
      have hconf := (checkSlotConflicts_indexed_iff _ _ _ _ _).mp hcheck
      rw [hdtm] at hconf
      constructor
      · intro hfalse; cases hfalse
      · intro hall
        exact absurd hconf (hall (d, m) (List.mem_cons_self _ _) o ho)
    · rw [if_neg hcheck]
      have hnoconf : ¬ TechConflict (lookupD fut d []) tech (dtm d o) (dtm d o + m) := by
        intro hconf
        exact hcheck ((checkSlotConflicts_indexed_iff _ _ _ _ _).mpr (hdtm ▸ hconf))
      rw [ih (fun q hq => hspans q (List.mem_cons_of_mem (d, m) hq))]
      constructor
      · intro htail
        intro q hq o2 ho2
        rcases List.mem_cons.mp hq with rfl | hmem
        · dsimp only at ho2
          rw [ho] at ho2
          injection ho2 with ho2
          subst ho2
          exact hnoconf
        · exact htail q hmem o2 ho2
      · intro hall q hq o2 ho2
        exact hall q (List.mem_cons_of_mem (d, m) hq) o2 ho2

/-- C2: for a multi-day plan returned by calculate_days_needed (more than one
DaySpan), check_tech_multiday_availability declares a technician available iff
the technician has no conflict on day 1 over [slot_start, close_of_day_1)
against the first-day snapshot, and, for every subsequent DaySpan (d, m), no
conflict over [open_of_d, open_of_d + m) against the appointment list found in
future_appointments under the key of d (a missing key being the empty list);
a conflict on any single day therefore makes the whole candidate unavailable. -/
theorem claim_C2 (cfg : Config) (hv : ValidTimes cfg) (fuel : Nat) (dur : Int)
    (d0 t0 : Nat) (plan : List (Nat × Int))
    (hplan : calculateDaysNeeded cfg fuel dur d0 t0 = .found plan)
    (hlen : 1 < plan.length)
    (c1 : Nat) (hc1 : (getBusinessHours cfg d0).close_time = some c1)
    (tech : String) (firstDayAppointments : List Appointment)
    (fut : List (Nat × List Appointment)) :
    checkTechMultidayAvailability tech plan firstDayAppointments t0 c1 fut cfg
        (some (indexAppointmentsByTech firstDayAppointments)) = true
      ↔ (¬ TechConflict firstDayAppointments tech (dtm d0 t0) (dtm d0 c1))
        ∧ ∀ p ∈ plan.tail, ∀ o, (getBusinessHours cfg p.1).open_time = some o →
            ¬ TechConflict (lookupD fut p.1 []) tech (dtm p.1 o) (dtm p.1 o + p.2) := by
  obtain ⟨o, c, ho, hc, hcase⟩ := calcDN_found_shape cfg fuel dur d0 t0 plan hplan
  rw [hc1] at hc
  injection hc with hc
  subst hc
  rcases hcase with ⟨hfit, rfl⟩ | ⟨hfit, l, hrec, rfl⟩
  · simp at hlen
  · have hrem : 0 < dur - ((c1 : Int) - t0) := by omega
    obtain ⟨hlne, hspans⟩ := daysLoop_spans cfg fuel d0 _ l hrem hrec
    rw [checkTechMultidayAvailability]
    dsimp only [List.tail_cons]
    by_cases hday1 : checkSlotConflicts t0 c1 d0 firstDayAppointments tech
        (some (indexAppointmentsByTech firstDayAppointments)) = true
    · rw [if_pos hday1]
      constructor
      · intro hfalse; cases hfalse
      · rintro ⟨hno, _⟩
        exact absurd ((checkSlotConflicts_indexed_iff _ _ _ _ _).mp hday1) hno
    · rw [if_neg hday1]
      have hnoconf : ¬ TechConflict firstDayAppointments tech (dtm d0 t0) (dtm d0 c1) :=
        fun hconf => hday1 ((checkSlotConflicts_indexed_iff _ _ _ _ _).mpr hconf)
      rw [checkFutureDays_iff cfg hv tech fut l hspans]
      constructor
      · intro htail
        exact ⟨hnoconf, htail⟩
      · rintro ⟨_, htail⟩
        exact htail

/-- Validity of the test configuration cfg2. -/
lemma validTimes_cfg2 : ValidTimes cfg2 := by
  intro w dh h
  injection h with h
  subst h
  refine ⟨fun o ho => ?_, fun c hcc => ?_⟩
  · injection ho with ho
    omega
  · injection hcc with hcc
    omega

/-- C2 witness: the 600-minute plan from day 0 at 09:00 under cfg2 with no
appointments anywhere leaves T1 available. -/
theorem claim_C2_witness :
    checkTechMultidayAvailability "T1" [((0 : Nat), (480 : Int)), ((1 : Nat), (120 : Int))]
        [] 540 1020 [] cfg2 (some (indexAppointmentsByTech [])) = true := by
  apply (claim_C2 cfg2 validTimes_cfg2 5 600 0 540 [((0 : Nat), (480 : Int)), ((1 : Nat), (120 : Int))]
    (by decide) (by decide) 1020 rfl "T1" [] []).mpr
  constructor
  · rintro ⟨a, ha, _⟩
    simp at ha
  · intro p hp o ho
    rintro ⟨a, ha, _⟩
    simp [lookupD] at ha

/-! ### The availability engine loop (C8, C9, C10) -/

lemma slotsLoop_mem (cfg : Config) (fuel date : Nat) (techIds : List String)
    (appointments : List Appointment) (sdm : Int) (fut : List (Nat × List Appointment))
    (closeTime : Nat) (indexed : TechIndex) :
    ∀ (starts : List Nat) (slots : List TimeSlot),
      slotsLoop cfg fuel date techIds appointments sdm fut closeTime indexed starts
        = some slots →
      ∀ ts ∈ slots, ∃ s ∈ starts,
        slotForStart cfg fuel date techIds appointments sdm fut closeTime indexed s
          = some (some ts) := by
  intro starts
  induction starts with
  | nil =>
    intro slots h ts hts
    rw [slotsLoop] at h
    injection h with h
    subst h
    cases hts
  | cons s rest ih =>
    intro slots h ts hts
    rw [slotsLoop] at h
    rcases hs : slotForStart cfg fuel date techIds appointments sdm fut closeTime indexed s
      with _ | (_ | ts2) <;> rw [hs] at h <;> dsimp only at h
    · cases h
    · obtain ⟨s2, hmem, hsf⟩ := ih slots h ts hts
      exact ⟨s2, List.mem_cons_of_mem s hmem, hsf⟩
    · rcases hrec : slotsLoop cfg fuel date techIds appointments sdm fut closeTime indexed rest
          with _ | l <;> rw [hrec] at h <;> dsimp only at h
      · cases h
      · injection h with h
        subst h
        rcases List.mem_cons.mp hts with rfl | hmem
        · exact ⟨s, List.mem_cons_self s rest, hs⟩
        · obtain ⟨s2, hmem2, hsf⟩ := ih l hrec ts hmem
          exact ⟨s2, List.mem_cons_of_mem s hmem2, hsf⟩

lemma slotForStart_spec (cfg : Config) (fuel date : Nat) (techIds : List String)
    (appointments : List Appointment) (sdm : Int) (fut : List (Nat × List Appointment))
    (closeTime : Nat) (indexed : TechIndex) (s : Nat) (ts : TimeSlot)
    (h : slotForStart cfg fuel date techIds appointments sdm fut closeTime indexed s
      = some (some ts)) :
    ts.start = s
    ∧ ts.available_tech_ids ≠ []
    ∧ ts.available_techs = ts.available_tech_ids.length
    ∧ List.Sublist ts.available_tech_ids techIds
    ∧ ∃ plan, calculateDaysNeeded cfg fuel sdm date s = .found plan
        ∧ ((1 < plan.length ∧ ts.endTime = closeTime)
          ∨ (¬ 1 < plan.length ∧ ts.endTime = (((s : Int) + sdm) % 1440).toNat)) := by
  rw [slotForStart.eq_def] at h
  rcases hdn : calculateDaysNeeded cfg fuel sdm date s with plan | _ | _ | _ <;>
    rw [hdn] at h <;> dsimp only at h
  · by_cases hml : 1 < plan.length
    · rw [if_pos hml] at h
      by_cases hemp : (calcMultidaySlotAvailability techIds plan appointments s closeTime
          fut cfg indexed).isEmpty
      · rw [if_pos hemp] at h
        injection h with h
        cases h
      · rw [if_neg hemp] at h
        injection h with h
        injection h with h
        subst h
        refine ⟨rfl, ?_, rfl, ?_, plan, rfl, Or.inl ⟨hml, rfl⟩⟩
        · intro hnil
          dsimp only at hnil
          rw [hnil] at hemp
          exact hemp rfl
        · exact List.filter_sublist techIds
    · rw [if_neg hml] at h
      by_cases hemp : (techIds.filter (fun t =>
          !(checkSlotConflicts s (((s : Int) + sdm) % 1440).toNat date appointments t
            (some indexed)))).isEmpty
      · rw [if_pos hemp] at h
        injection h with h
        cases h
      · rw [if_neg hemp] at h
        injection h with h
        injection h with h
        subst h
        refine ⟨rfl, ?_, rfl, ?_, plan, rfl, Or.inr ⟨hml, rfl⟩⟩
        · intro hnil
          dsimp only at hnil
          rw [hnil] at hemp
          exact hemp rfl
        · exact List.filter_sublist techIds
  · cases h
  · cases h
  · cases h

lemma calcDN_single_fit (cfg : Config) (fuel : Nat) (dur : Int) (d0 t0 : Nat)
    (plan : List (Nat × Int))
    (h : calculateDaysNeeded cfg fuel dur d0 t0 = .found plan)
    (hnot : ¬ 1 < plan.length) :
    ∀ c, (getBusinessHours cfg d0).close_time = some c → dur ≤ (c : Int) - t0 := by
  intro c hc
  obtain ⟨o, c2, ho, hc2, hcase⟩ := calcDN_found_shape cfg fuel dur d0 t0 plan h
  rw [hc2] at hc
  injection hc with hc
  subst hc
  rcases hcase with ⟨hfit, rfl⟩ | ⟨hfit, l, hrec, rfl⟩
  · exact hfit
  · exfalso
    have hrem : 0 < dur - ((c2 : Int) - t0) := by omega
    obtain ⟨hlne, _⟩ := daysLoop_spans cfg fuel d0 _ l hrem hrec
    have : 0 < l.length := List.length_pos.mpr hlne
    simp only [List.length_cons] at hnot
    omega

/-- C8: on a date whose resolved business hours are closed, the slot-start
generator returns the empty sequence and calculate_available_slots returns the
empty slot list as a normal outcome, whatever the technicians, appointments,
duration or future appointments. -/
theorem claim_C8 (cfg : Config) (fuel date : Nat) (techIds : List String)
    (appointments : List Appointment) (slotDurationMinutes : Option Int)
    (fut : List (Nat × List Appointment)) (intervalMinutes : Nat)
    (hclosed : (getBusinessHours cfg date).is_open = false) :
    generateSlotStartTimes (getBusinessHours cfg date) intervalMinutes = []
    ∧ calculateAvailableSlots cfg fuel date techIds appointments slotDurationMinutes fut
        = some [] := by
  rcases ho : (getBusinessHours cfg date).open_time with _ | o <;>
    rcases hc : (getBusinessHours cfg date).close_time with _ | c
  · rw [generateSlotStartTimes.eq_def, calculateAvailableSlots.eq_def, ho, hc]
    exact ⟨rfl, rfl⟩
  · rw [generateSlotStartTimes.eq_def, calculateAvailableSlots.eq_def, ho, hc]
    exact ⟨rfl, rfl⟩
  · rw [generateSlotStartTimes.eq_def, calculateAvailableSlots.eq_def, ho, hc]
    exact ⟨rfl, rfl⟩
  · rw [BusinessHours.is_open, ho, hc] at hclosed
    simp at hclosed

/-- Closed test configuration: no weekday configured at all. -/
def cfgClosed : Config := ⟨fun _ => none, 60, none⟩

/-- C8 witness: the closed configuration yields no starts and no slots. -/
theorem claim_C8_witness :
    generateSlotStartTimes (getBusinessHours cfgClosed 0) 60 = []
    ∧ calculateAvailableSlots cfgClosed 3 0 ["T1"] [] none [] = some [] :=
  claim_C8 cfgClosed 3 0 ["T1"] [] none [] 60 (by decide)

/-- C9: every TimeSlot emitted by calculate_available_slots has a non-empty
available_tech_ids list, its available_techs count equals the length of that
list, and its end time is the close of day 1 when the day-span plan has more
than one entry, else the slot start plus the resolved service duration. -/
theorem claim_C9 (cfg : Config) (hv : ValidTimes cfg) (fuel date : Nat)
    (techIds : List String) (appointments : List Appointment)
    (slotDurationMinutes : Option Int) (fut : List (Nat × List Appointment))
    (slots : List TimeSlot)
    (hsd : 0 ≤ slotDurationMinutes.getD cfg.defaultSlotDurationMinutes)
    (h : calculateAvailableSlots cfg fuel date techIds appointments slotDurationMinutes fut
      = some slots)
    (ts : TimeSlot) (hts : ts ∈ slots) :
    ts.available_tech_ids ≠ []
    ∧ ts.available_techs = ts.available_tech_ids.length
    ∧ ∃ plan, calculateDaysNeeded cfg fuel
          (slotDurationMinutes.getD cfg.defaultSlotDurationMinutes) date ts.start
          = .found plan
        ∧ (1 < plan.length →
            ∃ c, (getBusinessHours cfg date).close_time = some c ∧ ts.endTime = c)
        ∧ (¬ 1 < plan.length →
            (ts.endTime : Int)
              = (ts.start : Int) + slotDurationMinutes.getD cfg.defaultSlotDurationMinutes) := by
  rw [calculateAvailableSlots.eq_def] at h
  rcases ho : (getBusinessHours cfg date).open_time with _ | o <;>
    rcases hc : (getBusinessHours cfg date).close_time with _ | c <;>
    rw [ho, hc] at h <;> dsimp only at h
  · injection h with h; subst h; cases hts
  · injection h with h; subst h; cases hts
  · injection h with h; subst h; cases hts
  · obtain ⟨s, hsmem, hsf⟩ := slotsLoop_mem cfg fuel date techIds appointments _ fut c
      (indexAppointmentsByTech appointments) _ slots h ts hts
    obtain ⟨hstart, hne, hcount, _, plan, hdn, hcase⟩ := slotForStart_spec cfg fuel date
      techIds appointments _ fut c (indexAppointmentsByTech appointments) s ts hsf
    subst hstart
    refine ⟨hne, hcount, plan, hdn, ?_, ?_⟩
    · intro hml
      rcases hcase with ⟨_, hend⟩ | ⟨hnot, _⟩
      · exact ⟨c, rfl, hend⟩
      · exact absurd hml hnot
    · intro hnot
      rcases hcase with ⟨hml, _⟩ | ⟨_, hend⟩
      · exact absurd hml hnot
      · have hfit := calcDN_single_fit cfg fuel _ date ts.start plan hdn hnot c hc
        have hc1440 : c < 1440 := validTimes_close cfg hv date c hc
        rw [hend]
        have hnn : 0 ≤ (ts.start : Int)
            + slotDurationMinutes.getD cfg.defaultSlotDurationMinutes := by
          omega
        have hlt : (ts.start : Int)
            + slotDurationMinutes.getD cfg.defaultSlotDurationMinutes < 1440 := by
          omega
        rw [Int.emod_eq_of_lt hnn hlt]
        exact Int.toNat_of_nonneg hnn

/-- C10: in every TimeSlot emitted by calculate_available_slots, the
available_tech_ids list is an order-preserving sublist of the supplied
tech_ids (no addition, no duplication beyond the input, input order kept). -/
theorem claim_C10 (cfg : Config) (fuel date : Nat) (techIds : List String)
    (appointments : List Appointment) (slotDurationMinutes : Option Int)
    (fut : List (Nat × List Appointment)) (slots : List TimeSlot)
    (h : calculateAvailableSlots cfg fuel date techIds appointments slotDurationMinutes fut
      = some slots)
    (ts : TimeSlot) (hts : ts ∈ slots) :
    List.Sublist ts.available_tech_ids techIds := by
  rw [calculateAvailableSlots.eq_def] at h
  rcases ho : (getBusinessHours cfg date).open_time with _ | o <;>
    rcases hc : (getBusinessHours cfg date).close_time with _ | c <;>
    rw [ho, hc] at h <;> dsimp only at h
  · injection h with h; subst h; cases hts
  · injection h with h; subst h; cases hts
  · injection h with h; subst h; cases hts
  · obtain ⟨s, hsmem, hsf⟩ := slotsLoop_mem cfg fuel date techIds appointments _ fut c
      (indexAppointmentsByTech appointments) _ slots h ts hts
    exact (slotForStart_spec cfg fuel date techIds appointments _ fut c
      (indexAppointmentsByTech appointments) s ts hsf).2.2.2.1

/-- Test configuration for the engine witnesses: every day open 09:00-11:00. -/
def cfg3 : Config := ⟨fun _ => some ⟨some 540, some 660⟩, 60, none⟩

/-- Validity of cfg3. -/
lemma validTimes_cfg3 : ValidTimes cfg3 := by
  intro w dh h
  injection h with h
  subst h
  refine ⟨fun o ho => ?_, fun c hcc => ?_⟩
  · injection ho with ho
    omega
  · injection hcc with hcc
    omega

/-- C9 witness: the first emitted slot of a concrete computation has a
non-empty technician list. -/
theorem claim_C9_witness :
    (⟨540, 600, 1, ["T1"]⟩ : TimeSlot).available_tech_ids ≠ [] :=
  (claim_C9 cfg3 validTimes_cfg3 5 0 ["T1"] [] (some 60) []
    [⟨540, 600, 1, ["T1"]⟩, ⟨600, 660, 1, ["T1"]⟩] (by decide) (by decide)
    ⟨540, 600, 1, ["T1"]⟩ (by decide)).1

/-- C10 witness: that same emitted slot has its technician list a sublist of
the input technician list. -/
theorem claim_C10_witness :
    List.Sublist (⟨540, 600, 1, ["T1"]⟩ : TimeSlot).available_tech_ids ["T1"] :=
  claim_C10 cfg3 5 0 ["T1"] [] (some 60) []
    [⟨540, 600, 1, ["T1"]⟩, ⟨600, 660, 1, ["T1"]⟩] (by decide)
    ⟨540, 600, 1, ["T1"]⟩ (by decide)
